import Mathlib

/-!
Shallow embedding of the Gemini-Consistency-Tester repository's AI-OCR
"add rows" core (files `tno_ai_ocr_add_rows_schema.js`,
`tno_ai_ocr_add_rows_ocr.js`, `tno_ai_ocr_add_rows_add_rows.js`).

Strings are modelled as `List Char` / `String`, JS numbers as `ℚ` (the
host's binary floating point is only relevant to `toFixed` rounding in the
compression loop, which is modelled in exact decimal milli/centi units with
round-half-up; ties that the host may round differently shift a scale value
by at most one thousandth and do not affect any property stated here).
Host callbacks (DOM, `fetch`, `JSON.parse`) are inputs of the model.
-/

namespace Tno

/-! ### JS primitive string helpers -/

/-- The backtick character (code point 96), used by the code-fence stripper. -/
def tk : Char := Char.ofNat 96

/-- Membership in the JS regex `\s` class (code points of `/\s/`). -/
def isJsWS (c : Char) : Bool :=
  c.toNat = 9 || c.toNat = 10 || c.toNat = 11 || c.toNat = 12 || c.toNat = 13 ||
  c.toNat = 32 || c.toNat = 160 || c.toNat = 0x1680 ||
  (0x2000 ≤ c.toNat && c.toNat ≤ 0x200A) ||
  c.toNat = 0x2028 || c.toNat = 0x2029 || c.toNat = 0x202F ||
  c.toNat = 0x205F || c.toNat = 0x3000 || c.toNat = 0xFEFF

/-- Model of `String.prototype.trim` on a character list: drop `\s` characters from
both ends. -/
def jsTrim (l : List Char) : List Char :=
  ((l.dropWhile isJsWS).reverse.dropWhile isJsWS).reverse

/-- Model of `trim` on `String`. -/
def jsTrimStr (s : String) : String := String.mk (jsTrim s.data)

/-- Model of `str.replace(/\s+/g, ' ')`: every maximal run of `\s` characters becomes
a single space. -/
def collapseWs : List Char → List Char
  | [] => []
  | c :: cs =>
    if isJsWS c then
      match cs with
      | c2 :: _ => if isJsWS c2 then collapseWs cs else ' ' :: collapseWs cs
      | [] => [' ']
    else c :: collapseWs cs

/-- Zero-width characters removed by `cleanAndClampString`
(`/[​-‍﻿]/g`). -/
def isZeroWidth (c : Char) : Bool :=
  (0x200B ≤ c.toNat && c.toNat ≤ 0x200D) || c.toNat = 0xFEFF

/-- Fuel-driven worker for `runComp`: splits off the maximal run of the head
character. The fuel is always instantiated with the list length, which
suffices because each step consumes at least one character. -/
def runCompGo : Nat → List Char → List Char
  | 0, l => l
  | _ + 1, [] => []
  | fuel + 1, c :: cs =>
    let n := (cs.takeWhile (· = c)).length
    List.replicate (if 4 ≤ n && c ≠ '\n' then 3 else n + 1) c ++
      runCompGo fuel (cs.dropWhile (· = c))

/-- Model of `str.replace(/(.)\1{4,}/g, '$1$1$1')`: each maximal run of five or more
identical characters (the regex dot excludes newline) is replaced by three
copies. -/
def runComp (l : List Char) : List Char := runCompGo l.length l

/-- Worker for `maxNNRun`: current run char, current run length, best so far. -/
def maxNNRunGo : List Char → Char → Nat → Nat → Nat
  | [], _, cur, best => max cur best
  | c :: cs, p, cur, best =>
    if c = p && c ≠ '\n' then maxNNRunGo cs p (cur + 1) best
    else maxNNRunGo cs c (if c = '\n' then 0 else 1) (max cur best)

/-- Length of the longest run of a repeated non-newline character, as tested
by the regex `/(.)\1{9,}/` (satisfied iff this is ≥ 10). -/
def maxNNRun : List Char → Nat
  | [] => 0
  | c :: cs => maxNNRunGo cs c (if c = '\n' then 0 else 1) 0

/-- The largest number of occurrences of any single character
(`Math.max(...Object.values(counts))` in `isNoiseString`). -/
def charMaxCount (l : List Char) : Nat :=
  (l.map (fun c => l.count c)).foldr max 0

/-! ### OCR sanitization (`isNoiseString`, `cleanAndClampString`) -/

/-- Default string clamp length (`DEFAULT_STRING_MAXLEN`). -/
def DEFAULT_STRING_MAXLEN : Nat := 120

/-- Model of `isNoiseString(str)` from `tno_ai_ocr_add_rows_ocr.js`: empty is not
noise; a run of ≥ 10 identical characters in a string of length ≥ 10 is
noise; a string of length ≥ 20 whose dominant character makes up ≥ 80 % of
it (`max / s.length >= 0.8`, stated exactly as `4·len ≤ 5·max`) is noise. -/
def isNoiseString (l : List Char) : Bool :=
  if l = [] then false
  else if 10 ≤ l.length && 10 ≤ maxNNRun l then true
  else if 20 ≤ l.length && 4 * l.length ≤ 5 * charMaxCount l then true
  else false

/-- Model of `cleanAndClampString(value, maxLen)` applied to an already-stringified
value: strip zero-width characters, collapse whitespace and trim, compress
runs of ≥ 5 identical characters to 3, blank the result if `isNoiseString`
holds of the *compressed* string, then clamp to `maxLen` (default 120). -/
def cleanAndClampChars (l : List Char) (maxLen : Option Nat) : List Char :=
  let s1 := l.filter (fun c => !isZeroWidth c)
  let s2 := jsTrim (collapseWs s1)
  let s3 := runComp s2
  if isNoiseString s3 then []
  else s3.take (maxLen.getD DEFAULT_STRING_MAXLEN)

/-- Model of `cleanAndClampString` on `String`. -/
def cleanAndClampString (s : String) (maxLen : Option Nat) : String :=
  String.mk (cleanAndClampChars s.data maxLen)

/-! ### JSON values

Values produced by the host `JSON.parse` and consumed by normalization and
by the row-fill engine. -/

/-- A parsed JSON value (also used for raw item records). -/
inductive Json where
  | null
  | bool (b : Bool)
  | num (q : ℚ)
  | str (s : String)
  | arr (elems : List Json)
  | obj (entries : List (String × Json))

/-- Decimal rendering of a JS number. The host's `Number`-to-string
formatting is approximated (exact for integers); no theorem below depends
on the non-integer case. -/
def ratToStr (q : ℚ) : String :=
  if q.den = 1 then toString q.num else toString q.num ++ "/" ++ toString q.den

mutual

/-- Model of the JS `String(v)` coercion for parsed JSON values. -/
def jsToStr : Json → String
  | .null => "null"
  | .bool b => if b then "true" else "false"
  | .num q => ratToStr q
  | .str s => s
  | .arr l => jsListJoin "," l
  | .obj _ => "[object Object]"

/-- Model of `Array.prototype.join(sep)`: elements are stringified, with
`null` rendered as the empty string. -/
def jsListJoin (sep : String) : List Json → String
  | [] => ""
  | [x] => jsElemStr x
  | x :: y :: rest => jsElemStr x ++ sep ++ jsListJoin sep (y :: rest)

/-- Stringification of one `join` element (`null` contributes nothing). -/
def jsElemStr : Json → String
  | .null => ""
  | .bool b => if b then "true" else "false"
  | .num q => ratToStr q
  | .str s => s
  | .arr l => jsListJoin "," l
  | .obj _ => "[object Object]"

end

/-- Property read `raw?.[k]` on a parsed value: only objects yield
properties; `none` is the JS `undefined`. -/
def jsGet (j : Json) (k : String) : Option Json :=
  match j with
  | .obj entries => List.lookup k entries
  | _ => none

/-! ### Schema registry (`tno_ai_ocr_add_rows_schema.js` shape) -/

/-- DOM-naming part of a field definition (`def.dom`). -/
structure FieldDom where
  base : Option String
  suffix : Option String
deriving DecidableEq

/-- One entry of `TNO_SCHEMA.fields`. -/
structure FieldDef where
  type : Option String
  dom : Option FieldDom
  minLen : Option Nat
  maxLen : Option Nat
deriving DecidableEq

/-- The `window.TNO_SCHEMA` object. Association lists model JS object
properties (keys are unique in the actual configuration). -/
structure Schema where
  fields : List (String × FieldDef)
  transactions : List (String × List String)
  fillOrder : List String

/-- Error text thrown by the add-rows schema accessors when
`window.TNO_SCHEMA` is absent. -/
def schemaMissingMsg : String :=
  "TNO_SCHEMA missing: ensure schema.js is loaded BEFORE add_rows.js"

/-- Allowed-keys computation shared by `getAllowedKeys` (add_rows.js) and
`getAllowedKeysFromSchema` (ocr.js) once the schema is present:
`schema.transactions[t] || schema.transactions.default || Object.keys(schema.fields)`. -/
def getAllowedKeysP (s : Schema) (txn : String) : List String :=
  match List.lookup txn s.transactions with
  | some l => l
  | none =>
    match List.lookup "default" s.transactions with
    | some l => l
    | none => s.fields.map Prod.fst

/-- Model of `getAllowedKeys(transactionType)` from add_rows.js: throws
(models as `Except.error`) when the schema global is absent. -/
def getAllowedKeys (sch : Option Schema) (txn : String) : Except String (List String) :=
  match sch with
  | none => .error schemaMissingMsg
  | some s => .ok (getAllowedKeysP s txn)

/-- Fill-order computation once the schema is present: the configured
`fillOrder` (or the field keys if it is empty) filtered to the allowed
keys. -/
def getFieldFillOrderP (s : Schema) (txn : String) : List String :=
  let allowed := getAllowedKeysP s txn
  let seq := if s.fillOrder = [] then s.fields.map Prod.fst else s.fillOrder
  seq.filter (fun k => allowed.contains k)

/-- Model of `getFieldFillOrder(transactionType)` from add_rows.js: throws
when the schema global is absent. -/
def getFieldFillOrder (sch : Option Schema) (txn : String) : Except String (List String) :=
  match sch with
  | none => .error schemaMissingMsg
  | some s => .ok (getFieldFillOrderP s txn)

/-! ### Field spec derivation (`getFieldSpec`, ocr.js) -/

/-- The `{string, number, boolean}` buckets returned by `getFieldSpec`. -/
structure FieldSpecT where
  string : List String
  number : List String
  boolean : List String
deriving DecidableEq

/-- The hard-coded legacy spec that `getFieldSpec` freezes and returns when
`window.TNO_SCHEMA` is unavailable. -/
def legacyFieldSpec : FieldSpecT where
  string := ["code", "brand", "desc_short", "desc_long", "uom", "uomstk",
             "acct_disp", "dept_disp", "proj_disp", "rqt_day", "rqt_mth",
             "rqt_yr", "batchnum"]
  number := ["qty", "unit_list", "disc_pct", "unit_price", "amount",
             "unit_w_gst", "conv", "qty_uomstk", "uprice_uomstk"]
  boolean := ["gst"]

/-- Effective type of a field: `(def && def.type) || 'string'`. -/
def effType (d : FieldDef) : String :=
  match d.type with
  | some t => if t = "" then "string" else t
  | none => "string"

/-- The classification loop of `getFieldSpec` over `Object.entries(s.fields)`. -/
def specLoop (allowed : List String) : List (String × FieldDef) → FieldSpecT → FieldSpecT
  | [], acc => acc
  | (k, d) :: rest, acc =>
    if allowed.contains k then
      let t := effType d
      if t = "number" then specLoop allowed rest { acc with number := acc.number ++ [k] }
      else if t = "boolean" then specLoop allowed rest { acc with boolean := acc.boolean ++ [k] }
      else specLoop allowed rest { acc with string := acc.string ++ [k] }
    else specLoop allowed rest acc

/-- Model of `getFieldSpec(transactionType)` from ocr.js: derives the type
buckets from the schema when present, otherwise silently falls back to the
legacy static spec (it does NOT throw). -/
def getFieldSpec (sch : Option Schema) (txn : String) : FieldSpecT :=
  match sch with
  | some s => specLoop (getAllowedKeysP s txn) s.fields ⟨[], [], []⟩
  | none => legacyFieldSpec

/-- Model of `getFieldMaxLens(transactionType)` from ocr.js: per-field max
length for allowed string fields with a positive numeric `maxLen`. -/
def getFieldMaxLens (sch : Option Schema) (txn : String) : List (String × Nat) :=
  match sch with
  | none => []
  | some s =>
    let allowed := getAllowedKeysP s txn
    s.fields.foldl
      (fun m kd =>
        if allowed.contains kd.1 && effType kd.2 = "string" then
          match kd.2.maxLen with
          | some ml => if 0 < ml then m ++ [(kd.1, ml)] else m
          | none => m
        else m) []

/-- The concrete `window.TNO_SCHEMA` shipped in
`tno_ai_ocr_add_rows_schema.js`. -/
def tnoSchema : Schema where
  fields :=
    [("stkcode_code", ⟨some "string", some ⟨some "stkcode_code", some "{i}"⟩, some 3, some 64⟩),
     ("description", ⟨some "string", some ⟨some "stkcode_desc", some "{i}"⟩, none, some 120⟩),
     ("remark", ⟨some "string", some ⟨some "desc", some "{i}"⟩, none, some 500⟩),
     ("qnty_total", ⟨some "number", some ⟨some "qnty_total", some "{i}"⟩, none, none⟩),
     ("uom_trans_code", ⟨some "string", some ⟨some "uom_trans_code", some "{i}_disp"⟩, none, some 16⟩),
     ("price_unitrate_forex", ⟨some "number", some ⟨some "fmi_aup", some "{i}_disp"⟩, none, none⟩)]
  transactions :=
    [("default", ["stkcode_code", "description", "remark", "uom_trans_code",
                  "qnty_total", "price_unitrate_forex"])]
  fillOrder := ["stkcode_code", "description", "remark", "uom_trans_code",
                "qnty_total", "price_unitrate_forex"]

/-! ### Row-fill engine (`fillRow`, add_rows.js)

Only the sequence of field writes is modelled: `fillRowWrites` lists, in
order, the keys for which `fillRow` invokes `fillOneField` (an invocation
is the only way any focus/value/blur interaction reaches that field's DOM
element). The abort-free execution is modelled; the claims below do not
involve mid-fill aborts. -/

/-- Keys that `fillRow` skips when the row came from a stock-item search. -/
def stockSkipKeys : List String := ["stkcode_code", "stkcode_desc", "desc"]

/-- Test performed by `fillRow` on a value before writing:
`value == null || (typeof value === 'string' && value.trim() === '')`. -/
def isSkippedValue : Json → Bool
  | .null => true
  | .str s => jsTrimStr s = ""
  | _ => false

/-- Model of the write loop of `fillRow(rowIndex, data, ...)`: iterate the
schema fill order; skip stock-populated keys, keys absent from the record,
and null/blank values; every surviving key is handed to `fillOneField`. -/
def fillRowWrites (s : Schema) (txn : String) (data : List (String × Json))
    (isStockItem : Bool) : List String :=
  (getFieldFillOrderP s txn).filter fun k =>
    !(isStockItem && stockSkipKeys.contains k) &&
    (match List.lookup k data with
     | some v => !isSkippedValue v
     | none => false)

/-! ### Batch entry point (`$addRows` with `withAlertTrap`, add_rows.js)

`addOneRowAndFill`'s interaction with the host DOM is abstracted as input
data: for each record, `result` is the row index it returns (`none` models
a creation/search timeout returning `null`), and `alert` is `some msg`
when a host `alert(msg)` fires while that record is being processed (the
trap installed by `withAlertTrap` then sets its sticky `aborted` flag). -/

/-- Abstracted outcome of processing one record. -/
structure RowProc where
  result : Option Nat
  alert : Option String
deriving DecidableEq

/-- The error object thrown by `withAlertTrap` when an alert fired. -/
structure AbortError where
  code : String
  message : String
deriving DecidableEq

/-- Model of the loop body of `$addRows`: check the abort flag, process the
record, push its result, check the abort flag again, continue. Returns the
accumulated `newRowIds`, the final abort flag and the last alert message. -/
def addRowsLoop : List RowProc → Bool → String → List (Option Nat) →
    List (Option Nat) × Bool × String
  | [], ab, msg, acc => (acc.reverse, ab, msg)
  | p :: rest, ab, msg, acc =>
    if ab then (acc.reverse, ab, msg)
    else
      let ab2 := ab || p.alert.isSome
      let msg2 := match p.alert with | some m => m | none => msg
      let acc2 := p.result :: acc
      if ab2 then (acc2.reverse, ab2, msg2)
      else addRowsLoop rest ab2 msg2 acc2

/-- Model of `window.$addRows(rows, ...)` under `withAlertTrap`: if the trap
recorded an alert, the call rejects with a `TNO_ALERT_ABORT` error carrying
only the triggering message; otherwise it resolves with the row-id list. -/
def addRows (rows : List RowProc) : Except AbortError (List (Option Nat)) :=
  let r := addRowsLoop rows false "" []
  if r.2.1 then .error ⟨"TNO_ALERT_ABORT", "Aborted by alert: " ++ r.2.2⟩
  else .ok r.1

/-! ### Image compression (`compressImage`, ocr.js)

Quality is modelled in hundredths (`90` = 0.9) and scale in thousandths
(`1000` = 1.0), so the source's `toFixed(2)`/`toFixed(3)` rounding is exact
decimal rounding in these units. JPEG encoding is an oracle
`enc : quality → scale → byte size` supplied as input. -/

/-- Target size: `Math.max(20, Number(targetKB || 100)) * 1024`. -/
def tnoTargetBytes (kb : Nat) : Nat := max 20 (if kb = 0 then 100 else kb) * 1024

/-- One downscale step: `+(scale * 0.85).toFixed(3)` in thousandths,
rounding half up. -/
def fix3step (s : Nat) : Nat := (85 * s + 50) / 100

/-- Minimum tracking for `bestBlob` (`none` = no blob seen yet). -/
def minOpt : Option Nat → Nat → Nat
  | none, n => n
  | some m, n => min m n

/-- Observable outcome of the compression loop: whether the target was met,
the byte size of the returned blob, and the (quality, scale) pair used at
each iteration, in order. -/
structure CompressRun where
  met : Bool
  size : Nat
  used : List (Nat × Nat)
deriving DecidableEq

/-- Model of the `for (let iter = 0; iter < 15; iter++)` loop of
`compressImage`: encode at the current quality/scale, update `bestBlob`,
stop when the target is met; otherwise lower quality down to 0.25, then
multiply scale by 0.85 while it exceeds 0.4, else stop. -/
def compressLoop (enc : Nat → Nat → Nat) (tgt : Nat) :
    Nat → Nat → Nat → Option Nat → List (Nat × Nat) → CompressRun
  | 0, _, _, best, used => ⟨false, best.getD 0, used.reverse⟩
  | fuel + 1, q, s, best, used =>
    if enc q s ≤ tgt then ⟨true, enc q s, ((q, s) :: used).reverse⟩
    else if 25 < q then
      compressLoop enc tgt fuel (max 25 (q - 10)) s (some (minOpt best (enc q s)))
        ((q, s) :: used)
    else if 400 < s then
      compressLoop enc tgt fuel q (fix3step s) (some (minOpt best (enc q s)))
        ((q, s) :: used)
    else ⟨false, minOpt best (enc q s), ((q, s) :: used).reverse⟩

/-- The compression loop as entered by `compressImage`: 15 iterations
maximum, starting at quality 0.9 and scale 1.0 with no blob yet. -/
def compressImageRun (enc : Nat → Nat → Nat) (targetKB : Nat) : CompressRun :=
  compressLoop enc (tnoTargetBytes targetKB) 15 90 1000 none []

/-- Result of `compressImage`: the unchanged input file or a JPEG blob. -/
inductive CompressResult where
  | original
  | jpeg (size : Nat)
deriving DecidableEq

/-- Model of `compressImage(file, targetKB)`: non-image inputs, image decode
errors (`img.onerror`) and any throw inside the encode loop all resolve
with the original file — the promise never rejects. -/
def compressImage (isImage decodeOk encodeOk : Bool) (enc : Nat → Nat → Nat)
    (targetKB : Nat) : CompressResult :=
  if !isImage then .original
  else if !decodeOk then .original
  else if !encodeOk then .original
  else .jpeg (compressImageRun enc targetKB).size

/-! ### Per-image OCR attempt loop (`getOcrResults`, ocr.js)

The network is an oracle `resp : attempt ↦ outcome`. A `status` outcome
carries the HTTP status code and, for read bodies, the text assembled from
the response candidates (`none` models `response.json()` rejecting). -/

/-- Outcome of one `fetch` of the Gemini endpoint. -/
inductive FetchOutcome where
  | netErr
  | status (code : Nat) (body : Option String)

/-- Result of processing one image: items contributed to `allItems`, the
number of fetch attempts made, and the delays slept between attempts. -/
structure OcrImageResult (α : Type) where
  items : List α
  attempts : Nat
  delays : List Nat
deriving DecidableEq

/-- Model of the `let retries = 3; while (retries > 0) { ... }` loop of
`getOcrResults` for a single image: HTTP 503 decrements `retries` and
retries after a 2000 ms sleep while any remain; any other non-OK status or
network/body error breaks with no items; an OK status ends the attempt at
once with whatever `safeJsonExtract` (abstracted as `parse`) returns. -/
def ocrOneImage {α : Type} (resp : Nat → FetchOutcome) (parse : String → List α) :
    Nat → Nat → List Nat → OcrImageResult α
  | 0, att, ds => ⟨[], att, ds.reverse⟩
  | r + 1, att, ds =>
    match resp att with
    | .netErr => ⟨[], att + 1, ds.reverse⟩
    | .status code body =>
      if code = 503 then
        if 0 < r then ocrOneImage resp parse r (att + 1) (2000 :: ds)
        else ⟨[], att + 1, ds.reverse⟩
      else if 200 ≤ code && code ≤ 299 then
        match body with
        | some b => ⟨parse b, att + 1, ds.reverse⟩
        | none => ⟨[], att + 1, ds.reverse⟩
      else ⟨[], att + 1, ds.reverse⟩

/-- Model of `getOcrResults(files, ...)`: each image is attempted
independently (at most 3 fetches) and the per-image item lists are
concatenated in input order; per-image failures contribute nothing and are
never escalated (the function is total). -/
def getOcrResults {α : Type} (imgs : List (Nat → FetchOutcome))
    (parse : String → List α) : List α :=
  imgs.flatMap fun resp => (ocrOneImage resp parse 3 0 []).items

/-! ### Normalization (`normalizeNumber`, `coerceBoolean`,
`normalizeAndValidate`, ocr.js) -/

/-- ASCII letter test, for the `/[A-Za-z%]+/g` strip in `normalizeNumber`. -/
def isAsciiLetter (c : Char) : Bool :=
  (65 ≤ c.toNat && c.toNat ≤ 90) || (97 ≤ c.toNat && c.toNat ≤ 122)

/-- The three `replace` calls of `normalizeNumber`: remove `\s` and commas,
dollar signs, and ASCII letters and percent signs. -/
def stripNumChars (l : List Char) : List Char :=
  l.filter fun c => !(isJsWS c || c = ',' || c = '$' || isAsciiLetter c || c = '%')

/-- Numeric value of a digit list (most significant first). -/
def digitsToNat (l : List Char) : Nat :=
  l.foldl (fun a c => a * 10 + (c.toNat - 48)) 0

/-- Model of the host `parseFloat` restricted to its use in
`normalizeNumber`: the input has already had all ASCII letters removed, so
no exponent notation can survive and only an optional sign, integer digits
and an optional fraction part are relevant. Returns `none` for NaN. -/
def parseFloatQ (l : List Char) : Option ℚ :=
  let l1 := l.dropWhile isJsWS
  let sgn : ℚ × List Char :=
    match l1 with
    | '-' :: r => (-1, r)
    | '+' :: r => (1, r)
    | _ => (1, l1)
  let intPart := sgn.2.takeWhile Char.isDigit
  let rest := sgn.2.dropWhile Char.isDigit
  let fracPart :=
    match rest with
    | '.' :: r => r.takeWhile Char.isDigit
    | _ => []
  if intPart = [] && fracPart = [] then none
  else
    some (sgn.1 * ((digitsToNat intPart : ℚ) +
      (digitsToNat fracPart : ℚ) / ((10 : ℚ) ^ fracPart.length)))

/-- Model of `normalizeNumber(value)`: `null`/`undefined` stay `null`,
finite numbers pass through, anything else is stringified, stripped of
whitespace, commas, `$`, letters and `%`, and fed to `parseFloat`;
an unparseable result is `null`. -/
def normalizeNumber : Json → Option ℚ
  | .null => none
  | .num q => some q
  | v => parseFloatQ (stripNumChars (jsToStr v).data)

/-- Model of `normalizeNumber` on a possibly-absent property. -/
def normalizeNumberO : Option Json → Option ℚ
  | none => none
  | some v => normalizeNumber v

/-- The affirmative tokens recognized by `coerceBoolean`. -/
def boolTokens : List String := ["y", "yes", "true", "t", "1", "gst", "incl", "included"]

/-- Model of `coerceBoolean(value)`: booleans pass through, numbers test
`> 0`, strings test the affirmative token list (after trim/lower-case) and
then the numeric threshold; everything else (including absence and `null`)
is `false`. -/
def coerceBoolean : Option Json → Bool
  | some (.bool b) => b
  | some (.num q) => decide (0 < q)
  | some (.str s) =>
    let t := (jsTrimStr s).toLower
    if boolTokens.contains t then true
    else
      match normalizeNumber (.str s) with
      | some n => decide (0 < n)
      | none => false
  | _ => false

/-- A normalized record value: trimmed string, nullable number, boolean. -/
inductive NormValue where
  | nstr (s : String)
  | nnum (q : Option ℚ)
  | nbool (b : Bool)
deriving DecidableEq

/-- A normalized record (JS object built by `normalizeAndValidate`). -/
abbrev NRec := List (String × NormValue)

/-- JS property assignment `o[k] = v` on an association list: update in
place if the key exists, else append. -/
def setKey {β : Type} (l : List (String × β)) (k : String) (v : β) :
    List (String × β) :=
  if (List.lookup k l).isSome then
    l.map fun kv => if kv.1 = k then (k, v) else kv
  else l ++ [(k, v)]

/-- String-field normalization of `normalizeAndValidate`: absent and `null`
become `''`; arrays are joined with spaces; the result is stringified,
whitespace-collapsed and trimmed. -/
def normStringOf (raw : Json) (k : String) : String :=
  match jsGet raw k with
  | none => ""
  | some .null => ""
  | some (.arr l) => String.mk (jsTrim (collapseWs (jsListJoin " " l).data))
  | some v => String.mk (jsTrim (collapseWs (jsToStr v).data))

/-- One `for (const k of spec.…)` assignment loop of `normalizeAndValidate`:
assign `f k` to `out[k]` for each listed field. -/
def applyFields (f : String → NormValue) : List String → NRec → NRec
  | [], o => o
  | k :: ks, o => applyFields f ks (setKey o k (f k))

/-- The `for (const k of spec.string)` loop. -/
def applyStrings (raw : Json) : List String → NRec → NRec :=
  applyFields fun k => .nstr (normStringOf raw k)

/-- The `for (const k of spec.number)` loop. -/
def applyNumbers (raw : Json) : List String → NRec → NRec :=
  applyFields fun k => .nnum (normalizeNumberO (jsGet raw k))

/-- The `for (const k of spec.boolean)` loop. -/
def applyBooleans (raw : Json) : List String → NRec → NRec :=
  applyFields fun k => .nbool (coerceBoolean (jsGet raw k))

/-- JS truthiness of a normalized value (`out.rqt_day ? ... : ''`). -/
def normTruthy : NormValue → Bool
  | .nstr s => s ≠ ""
  | .nnum none => false
  | .nnum (some q) => q ≠ 0
  | .nbool b => b

/-- Model of `String(v)` on a normalized value (for the date-padding step). -/
def normValToStr : NormValue → String
  | .nstr s => s
  | .nnum none => "null"
  | .nnum (some q) => ratToStr q
  | .nbool b => if b then "true" else "false"

/-- Model of `String.prototype.padStart(width, '0')`. -/
def padStartZ (width : Nat) (s : String) : String :=
  if width ≤ s.length then s
  else String.mk (List.replicate (width - s.length) '0') ++ s

/-- One `if ('rqt_…' in out) out.rqt_… = out.rqt_… ? pad : ''` statement. -/
def dateFixKey (o : NRec) (k : String) (width : Nat) : NRec :=
  match List.lookup k o with
  | none => o
  | some v =>
    setKey o k (.nstr (if normTruthy v then padStartZ width (normValToStr v) else ""))

/-- Normalization of one raw item against a field spec (the body of the
`arr.map` in `normalizeAndValidate`). -/
def normalizeItem (spec : FieldSpecT) (raw : Json) : NRec :=
  let o := applyBooleans raw spec.boolean
    (applyNumbers raw spec.number (applyStrings raw spec.string []))
  dateFixKey (dateFixKey (dateFixKey o "rqt_day" 2) "rqt_mth" 2) "rqt_yr" 4

/-- The three date-part keys that `normalizeAndValidate` zero-pads. -/
def dateKeys : List String := ["rqt_day", "rqt_mth", "rqt_yr"]

/-- Model of `Array.isArray(items) ? items : (items ? [items] : [])`. -/
def jsToItems : Json → List Json
  | .arr l => l
  | .null => []
  | .bool false => []
  | .num q => if q = 0 then [] else [.num q]
  | .str s => if s = "" then [] else [.str s]
  | j => [j]

/-- Model of `normalizeAndValidate(items, transactionType)`. -/
def normalizeAndValidate (sch : Option Schema) (txn : String) (items : Json) :
    List NRec :=
  let spec := getFieldSpec sch txn
  (jsToItems items).map (normalizeItem spec)

/-! ### Sanitization over records (`sanitizeItems`, ocr.js) -/

/-- Model of `String(value ?? '')` for a possibly-missing record value. -/
def normValForClamp : Option NormValue → String
  | none => ""
  | some (.nnum none) => ""
  | some v => normValToStr v

/-- Model of `sanitizeItems(items, transactionType)`: every string-bucket
field of every row is passed through `cleanAndClampString` with its
per-field (or default) limit. -/
def sanitizeItems (sch : Option Schema) (txn : String) (rows : List NRec) :
    List NRec :=
  let spec := getFieldSpec sch txn
  let limits := getFieldMaxLens sch txn
  rows.map fun row =>
    spec.string.foldl
      (fun o k =>
        setKey o k (.nstr (cleanAndClampString (normValForClamp (List.lookup k o))
          (List.lookup k limits)))) row

/-! ### Response-text parsing (`safeJsonExtract`, ocr.js)

The host `JSON.parse` is an input `jp` of the model (it returns `none`
where `JSON.parse` throws). -/

/-- Take-3 test used by the fence stripper: the list starts with three
backticks. -/
def isTicks3 (l : List Char) : Prop := l.take 3 = [tk, tk, tk]

instance : DecidablePred isTicks3 := fun l => by unfold isTicks3; infer_instance

/-- Take-4 test for the letters `json` following an opening fence. -/
def isJson4 (l : List Char) : Prop := l.take 4 = ['j', 's', 'o', 'n']

instance : DecidablePred isJson4 := fun l => by unfold isJson4; infer_instance

/-- Model of one global `replace` with the fence regex: with `ej = true`
this is `str.replace(/```(?:json)?/g, '')`, with `ej = false` it is
`str.replace(/```/g, '')`. The scan is leftmost-first; a match consumes
three backticks and, when `ej` and the letters follow directly, `json`. -/
def stripFence (ej : Bool) : List Char → List Char
  | [] => []
  | a :: l =>
    if isTicks3 (a :: l) then
      if ej ∧ isJson4 (l.drop 2) then stripFence ej ((l.drop 2).drop 4)
      else stripFence ej (l.drop 2)
    else a :: stripFence ej l
termination_by l => l.length
decreasing_by all_goals (simp [List.length_drop] <;> omega)

/-- The cleaning pipeline of `safeJsonExtract`: remove NUL bytes, strip
```json fences, strip residual ``` fences, trim. -/
def cleanText (l : List Char) : List Char :=
  jsTrim (stripFence false (stripFence true (l.filter fun c => c.toNat ≠ 0)))

/-- Index of the first occurrence of `c` (`String.prototype.indexOf`). -/
def firstIdx (c : Char) (l : List Char) : Option Nat :=
  l.findIdx? (· = c)

/-- Index of the last occurrence of `c` (`String.prototype.lastIndexOf`). -/
def lastIdx (c : Char) (l : List Char) : Option Nat :=
  match l.reverse.findIdx? (· = c) with
  | some i => some (l.length - 1 - i)
  | none => none

/-- Model of `safeJsonExtract(text, transactionType)`: falsy text yields no
items; otherwise parse the cleaned text, falling back to the first-`[` /
last-`]` slice; parsed values are normalized and sanitized; any remaining
failure yields the empty item list. -/
def safeJsonExtract (jp : String → Option Json) (sch : Option Schema)
    (txn : String) (text : String) : List NRec :=
  if text = "" then []
  else
    let cleaned := String.mk (cleanText text.data)
    match jp cleaned with
    | some parsed => sanitizeItems sch txn (normalizeAndValidate sch txn parsed)
    | none =>
      match firstIdx '[' cleaned.data, lastIdx ']' cleaned.data with
      | some a, some b =>
        if a < b then
          let slice := String.mk ((cleaned.data.drop a).take (b + 1 - a))
          match jp slice with
          | some parsed => sanitizeItems sch txn (normalizeAndValidate sch txn parsed)
          | none => []
        else []
      | _, _ => []

/-- The code-fenced form of a response text considered in the spec:
an opening ```json fence on its own line, the text, and a closing fence. -/
def fencedText (t : String) : String :=
  String.mk ([tk, tk, tk, 'j', 's', 'o', 'n'] ++ '\n' :: t.data ++ '\n' :: [tk, tk, tk])

/-! ### Concrete example data used by witnesses and counterexamples -/

/-- A string field definition with no DOM/length extras. -/
def plainStrField : FieldDef := ⟨some "string", none, none, none⟩

/-- A schema whose canonical fill order is `[C, A, B]` (the configuration
shape used in the spec's fill-order example). -/
def schemaCAB : Schema where
  fields := [("A", plainStrField), ("B", plainStrField), ("C", plainStrField)]
  transactions := [("default", ["A", "B", "C"])]
  fillOrder := ["C", "A", "B"]

/-- A record whose own key order is `A, B, C`. -/
def dataABC : List (String × Json) := [("A", .str "1"), ("B", .str "2"), ("C", .str "3")]

/-- The same record with its keys listed in the order `C, B, A`. -/
def dataCBA : List (String × Json) := [("C", .str "3"), ("B", .str "2"), ("A", .str "1")]

/-- Batch of three records whose second record fails to create a row. -/
def c1rows : List RowProc := [⟨some 4, none⟩, ⟨none, none⟩, ⟨some 6, none⟩]

/-- Batch of three records where a host alert fires while record 1 is being
processed; record 0 produced row index 5. -/
def c2rowsA : List RowProc := [⟨some 5, none⟩, ⟨some 6, some "HOST ALERT"⟩, ⟨some 7, none⟩]

/-- Same as `c2rowsA` except record 0 produced row index 9. -/
def c2rowsB : List RowProc := [⟨some 9, none⟩, ⟨some 6, some "HOST ALERT"⟩, ⟨some 7, none⟩]

/-- An encoder oracle whose output always exceeds any realistic target. -/
def encHuge : Nat → Nat → Nat := fun _ _ => 1000000000

/-- An encoder oracle that never meets the 100 KB target and attains its
minimum at the lowest quality and scale. -/
def encSlope : Nat → Nat → Nat := fun q s => 200000 + q + s

/-- Classification of a fetch outcome that terminates an image's attempt
loop immediately with no items: a network error, a non-OK non-503 status,
or an OK status whose body cannot be read as JSON. -/
def endsWithNoItems : FetchOutcome → Bool
  | .netErr => true
  | .status code body =>
    if code = 503 then false
    else if 200 ≤ code && code ≤ 299 then body.isNone
    else true

/-- A response oracle: two overloaded responses, then success. -/
def respTwice503 : Nat → FetchOutcome :=
  fun n => if n < 2 then .status 503 none else .status 200 (some "[]")

/-! ## Theorems -/

/-! ### Shared helper lemmas -/

/-- Getting an in-range element of a mapped list, via `getD`, applies the
function to the corresponding element of the original list. -/
theorem getD_map_of_lt {α β : Type} (f : α → β) (l : List α) :
    ∀ (j : Nat), j < l.length → ∀ (d : β) (d0 : α),
      (l.map f).getD j d = f (l.getD j d0) := by
  induction l with
  | nil => intro j hj; simp at hj
  | cons a l ih =>
    intro j hj d d0
    cases j with
    | zero => rfl
    | succ j =>
      simp only [List.map_cons, List.getD_cons_succ]
      exact ih j (by simpa using hj) d d0

/-- When no record's processing fires an alert, the `$addRows` loop keeps
its abort flag down and pushes every record's result in order. -/
theorem addRowsLoop_no_alert (rows : List RowProc)
    (h : ∀ p ∈ rows, p.alert = none) :
    ∀ (msg : String) (acc : List (Option Nat)),
      addRowsLoop rows false msg acc =
        (acc.reverse ++ rows.map RowProc.result, false, msg) := by
  induction rows with
  | nil => intro msg acc; simp [addRowsLoop]
  | cons p rest ih =>
    intro msg acc
    obtain ⟨pres, palert⟩ := p
    have hp : palert = none := h _ (List.mem_cons_self _ _)
    subst hp
    have hrest : ∀ q ∈ rest, q.alert = none := fun q hq => h q (List.mem_cons_of_mem _ hq)
    rw [show addRowsLoop (⟨pres, none⟩ :: rest) false msg acc
        = addRowsLoop rest false msg (pres :: acc) from rfl]
    rw [ih hrest msg (pres :: acc)]
    simp

/-- If the first alert fires while record `k` is processed, the `$addRows`
loop stops right after pushing record `k`'s result, with the abort flag up
and that alert's message recorded. -/
theorem addRowsLoop_alert_at (m : String) :
    ∀ (k : Nat) (rows : List RowProc) (msg : String) (acc : List (Option Nat)),
      k < rows.length →
      (∀ j, j < k → (rows.getD j ⟨none, none⟩).alert = none) →
      (rows.getD k ⟨none, none⟩).alert = some m →
      addRowsLoop rows false msg acc =
        (acc.reverse ++ (rows.take (k + 1)).map RowProc.result, true, m) := by
  intro k
  induction k with
  | zero =>
    intro rows msg acc hk _ halert
    match rows with
    | [] => simp at hk
    | p :: rest =>
      obtain ⟨pres, palert⟩ := p
      have hp : palert = some m := halert
      subst hp
      rw [show addRowsLoop (⟨pres, some m⟩ :: rest) false msg acc
          = ((pres :: acc).reverse, true, m) from rfl]
      simp
  | succ k ih =>
    intro rows msg acc hk hpre halert
    match rows with
    | [] => simp at hk
    | p :: rest =>
      obtain ⟨pres, palert⟩ := p
      have hp : palert = none := hpre 0 (Nat.succ_pos k)
      subst hp
      rw [show addRowsLoop (⟨pres, none⟩ :: rest) false msg acc
          = addRowsLoop rest false msg (pres :: acc) from rfl]
      rw [ih rest msg (pres :: acc) (by simpa using hk)
        (fun j hj => hpre (j + 1) (Nat.succ_lt_succ hj)) halert]
      simp

/-! ### Claim C1 -/

/-- Claim C1: for a batch of `N ≥ 1` records with no abort signal during
the batch, if row creation fails only for record `k`, then `$addRows`
resolves (returns `Except.ok`, it does not reject) with a list of length
`N` whose entry at index `k` is `null` and whose every other entry is a
non-null row index. -/
theorem C1_per_row_failure_isolated (rows : List RowProc) (N k : Nat)
    (hN : rows.length = N) (hk : k < N)
    (hquiet : ∀ p ∈ rows, p.alert = none)
    (hfail : (rows.getD k ⟨none, none⟩).result = none)
    (hok : ∀ j, j < N → j ≠ k → ((rows.getD j ⟨none, none⟩).result).isSome = true) :
    addRows rows = .ok (rows.map RowProc.result) ∧
    (rows.map RowProc.result).length = N ∧
    (rows.map RowProc.result).getD k (some 0) = none ∧
    ∀ j, j < N → j ≠ k → ((rows.map RowProc.result).getD j none).isSome = true := by
  have hloop := addRowsLoop_no_alert rows hquiet "" []
  refine ⟨?_, ?_, ?_, ?_⟩
  · simp [addRows, hloop]
  · simp [hN]
  · rw [getD_map_of_lt RowProc.result rows k (hN ▸ hk) (some 0) ⟨none, none⟩]
    exact hfail
  · intro j hj hne
    rw [getD_map_of_lt RowProc.result rows j (hN ▸ hj) none ⟨none, none⟩]
    exact hok j hj hne

/-- Witness for C1 on a concrete three-record batch whose middle record
times out. -/
theorem C1_witness :
    addRows c1rows = .ok [some 4, none, some 6] :=
  (C1_per_row_failure_isolated c1rows 3 1 rfl (by decide) (by decide) rfl
    (by intro j hj hne; interval_cases j
        · rfl
        · exact absurd rfl hne
        · rfl)).1

/-! ### Claim C2 -/

/-- Counterexample to claim C2: the claim asserts that when a host alert
fires during record `k`, the row-index results achieved up to that point
"are still returned to the caller". In the code `withAlertTrap` throws an
`Error` carrying only a code and the alert message, and `newRowIds` is
discarded: two batches that differ in record 0's created row index (5
versus 9) produce *identical* rejected results, so no partial results can
reach the caller, although the internal partial lists differ. -/
theorem C2_counterexample :
    addRows c2rowsA = addRows c2rowsB ∧
    addRows c2rowsA = .error ⟨"TNO_ALERT_ABORT", "Aborted by alert: HOST ALERT"⟩ ∧
    (addRowsLoop c2rowsA false "" []).1 = [some 5, some 6] ∧
    (addRowsLoop c2rowsB false "" []).1 = [some 9, some 6] ∧
    (addRowsLoop c2rowsA false "" []).1 ≠ (addRowsLoop c2rowsB false "" []).1 :=
  ⟨rfl, rfl, rfl, rfl, by decide⟩

/-- Claim C2 as amended: if a host alert with message `m` fires while
record `k` (`k < N`) is being processed and no alert fired earlier, then no
record after `k` is processed (so no further row creation is attempted) and
the batch call rejects with the distinguished `TNO_ALERT_ABORT` condition
carrying the triggering message; the partial results remain internal to the
loop (exactly the results of records `0 … k`) and are not part of the
rejection value. -/
theorem C2_abort_stops_batch (rows : List RowProc) (k : Nat) (m : String)
    (hk : k < rows.length)
    (hpre : ∀ j, j < k → (rows.getD j ⟨none, none⟩).alert = none)
    (halert : (rows.getD k ⟨none, none⟩).alert = some m) :
    addRows rows = .error ⟨"TNO_ALERT_ABORT", "Aborted by alert: " ++ m⟩ ∧
    (addRowsLoop rows false "" []).1 = (rows.take (k + 1)).map RowProc.result ∧
    ((addRowsLoop rows false "" []).1).length = k + 1 := by
  have hloop := addRowsLoop_alert_at m k rows "" [] hk hpre halert
  refine ⟨?_, ?_, ?_⟩
  · simp [addRows, hloop]
  · simp [hloop]
  · simp [hloop, List.length_take]
    omega

/-- Witness for C2 (amended) on a concrete batch aborted at record 1. -/
theorem C2_witness :
    addRows c2rowsA = .error ⟨"TNO_ALERT_ABORT", "Aborted by alert: HOST ALERT"⟩ :=
  (C2_abort_stops_batch c2rowsA 1 "HOST ALERT" (by decide)
    (by intro j hj; interval_cases j; rfl) rfl).1

/-! ### Claim C4 -/

/-- Claim C4 (evaluated at the failing inputs): `cleanAndClampString`
compresses runs of ≥ 5 identical characters to 3 *before* calling
`isNoiseString`, so no string reaching the noise test can still contain a
run of ≥ 10 identical characters. A 12-character string of one repeated
character therefore sanitizes to `"aaa"`, not to `""` as the claim states,
and a 20-character string that is 85 % one character sanitizes to
`"aaabcd"`, not `""`. -/
theorem C4_noise_rule_unreachable :
    cleanAndClampString "aaaaaaaaaaaa" (some 120) = "aaa" ∧
    cleanAndClampString "aaaaaaaaaaaa" (some 120) ≠ "" ∧
    cleanAndClampString "aaaaaaaaaaaaaaaaabcd" (some 120) = "aaabcd" ∧
    isNoiseString "aaaaaaaaaaaa".data = true := by
  refine ⟨by decide, by decide, by decide, by decide⟩

/-! ### Claim C5 -/

/-- Counterexample to claim C5: with the schema object absent, the
extraction pipeline does not fail at all — `getFieldSpec` silently returns
the built-in legacy field spec — while the row-fill pipeline's
`getAllowedKeys` raises its configuration error on the call itself (a
per-call failure), so neither pipeline aborts at startup. -/
theorem C5_counterexample :
    getFieldSpec none "default" = legacyFieldSpec ∧
    getAllowedKeys none "default" = Except.error schemaMissingMsg :=
  ⟨rfl, rfl⟩

/-- Claim C5 as amended: when the schema object is absent, every call to
the row-fill schema accessors fails with the configuration error (a
per-call throw, repeated on each call), while the extraction pipeline's
`getFieldSpec` never fails and instead falls back to the legacy static
spec; with the schema present, the accessors succeed. -/
theorem C5_schema_absence_is_per_call :
    ∀ txn : String,
      getAllowedKeys none txn = Except.error schemaMissingMsg ∧
      getFieldFillOrder none txn = Except.error schemaMissingMsg ∧
      getFieldSpec none txn = legacyFieldSpec ∧
      ∀ s : Schema, getAllowedKeys (some s) txn = Except.ok (getAllowedKeysP s txn) :=
  fun _ => ⟨rfl, rfl, rfl, fun _ => rfl⟩

/-! ### Claim C7 -/

/-- Claim C7: fields are written in the Schema Registry's canonical fill
order restricted to the transaction whitelist, not in the record's own key
order: the write sequence is a sublist of the canonical order, it depends
on the record only through key lookup (so reordering the record's keys
cannot change it), and for canonical order `[C, A, B]` with a record whose
keys are listed `A, B, C` the write sequence is `C, A, B`. -/
theorem C7_canonical_fill_order :
    (∀ (s : Schema) (txn : String) (d1 d2 : List (String × Json)) (st : Bool),
        (∀ k ∈ getFieldFillOrderP s txn, List.lookup k d1 = List.lookup k d2) →
        fillRowWrites s txn d1 st = fillRowWrites s txn d2 st) ∧
    (∀ (s : Schema) (txn : String) (d : List (String × Json)) (st : Bool),
        (fillRowWrites s txn d st).Sublist (getFieldFillOrderP s txn)) ∧
    fillRowWrites schemaCAB "default" dataABC false = ["C", "A", "B"] := by
  refine ⟨?_, ?_, by decide⟩
  · intro s txn d1 d2 st h
    unfold fillRowWrites
    apply List.filter_congr
    intro k hk
    rw [h k hk]
  · intro s txn d st
    exact List.filter_sublist _

/-- Witness for C7: the `[C, A, B]`-ordered writes are unchanged when the
record lists its keys in the reverse order. -/
theorem C7_witness :
    fillRowWrites schemaCAB "default" dataABC false =
      fillRowWrites schemaCAB "default" dataCBA false :=
  C7_canonical_fill_order.1 schemaCAB "default" dataABC dataCBA false (by
    have horder : getFieldFillOrderP schemaCAB "default" = ["C", "A", "B"] := rfl
    rw [horder]
    intro k hk
    fin_cases hk <;> rfl)

/-! ### Claim C9 -/

/-- Claim C9: a field whose value in the record is `null` or a blank
(whitespace-only) string is skipped entirely by `fillRow` — its key never
reaches `fillOneField`, so no focus, write or value change is performed on
that field's DOM element. -/
theorem C9_null_blank_values_skipped (s : Schema) (txn : String)
    (d : List (String × Json)) (st : Bool) (k : String) (v : Json)
    (hv : List.lookup k d = some v) (hskip : isSkippedValue v = true) :
    k ∉ fillRowWrites s txn d st := by
  intro hmem
  unfold fillRowWrites at hmem
  have hp := List.of_mem_filter hmem
  rw [hv] at hp
  simp [hskip] at hp

/-- Witness for C9: a whitespace-only `remark` is not written. -/
theorem C9_witness :
    "remark" ∉ fillRowWrites tnoSchema "default"
      [("remark", Json.str "   "), ("stkcode_code", Json.str "AB")] false :=
  C9_null_blank_values_skipped tnoSchema "default" _ false "remark"
    (Json.str "   ") rfl (by decide)

/-! ### Claim C6 -/

/-- The attempt counter of the per-image loop never exceeds the starting
attempt number plus the remaining retries. -/
theorem ocrOneImage_attempts_le {α : Type} (resp : Nat → FetchOutcome)
    (parse : String → List α) :
    ∀ (fuel att : Nat) (ds : List Nat),
      (ocrOneImage resp parse fuel att ds).attempts ≤ att + fuel := by
  intro fuel
  induction fuel with
  | zero => intro att ds; simp [ocrOneImage]
  | succ r ih =>
    intro att ds
    cases hr : resp att with
    | netErr => simp [ocrOneImage, hr]
    | status code body =>
      by_cases h503 : code = 503
      · by_cases hrpos : 0 < r
        · have := ih (att + 1) (2000 :: ds)
          simp [ocrOneImage, hr, h503, hrpos]
          omega
        · simp [ocrOneImage, hr, h503, hrpos]
      · by_cases hok : 200 ≤ code ∧ code ≤ 299
        · cases body with
          | some b => simp [ocrOneImage, hr, h503, hok.1, hok.2]
          | none => simp [ocrOneImage, hr, h503, hok.1, hok.2]
        · cases body with
          | some b =>
            simp only [ocrOneImage, hr]
            rw [if_neg (by simp [h503]), if_neg (by simp; omega)]
            simp
          | none =>
            simp only [ocrOneImage, hr]
            rw [if_neg (by simp [h503]), if_neg (by simp; omega)]
            simp

/-- Claim C6: per image, a 503 ("service overloaded") response is retried
after a fixed 2000 ms delay up to 3 total attempts; three 503s (exhausted
retries), or any non-overload failure (network error, non-OK status, or an
unreadable body) at any attempt, end the image's attempt with zero items —
and the batch aggregation is unaffected (no error escalates: the failed
image merely contributes nothing to the concatenation); a structurally
successful (OK-status) response ends the attempt immediately with whatever
the parser returns, regardless of the parse outcome. -/
theorem C6_overload_retry_policy {α : Type} (resp : Nat → FetchOutcome)
    (parse : String → List α) :
    (ocrOneImage resp parse 3 0 []).attempts ≤ 3 ∧
    (∀ b0 b1 b2, resp 0 = .status 503 b0 → resp 1 = .status 503 b1 →
       resp 2 = .status 503 b2 →
       ocrOneImage resp parse 3 0 [] = ⟨[], 3, [2000, 2000]⟩) ∧
    (∀ c b, resp 0 = .status c (some b) → 200 ≤ c → c ≤ 299 →
       ocrOneImage resp parse 3 0 [] = ⟨parse b, 1, []⟩) ∧
    (∀ b0 c b, resp 0 = .status 503 b0 → resp 1 = .status c (some b) →
       200 ≤ c → c ≤ 299 →
       ocrOneImage resp parse 3 0 [] = ⟨parse b, 2, [2000]⟩) ∧
    (∀ b0 b1 c b, resp 0 = .status 503 b0 → resp 1 = .status 503 b1 →
       resp 2 = .status c (some b) → 200 ≤ c → c ≤ 299 →
       ocrOneImage resp parse 3 0 [] = ⟨parse b, 3, [2000, 2000]⟩) ∧
    (endsWithNoItems (resp 0) = true →
       ocrOneImage resp parse 3 0 [] = ⟨[], 1, []⟩) ∧
    (∀ b0, resp 0 = .status 503 b0 → endsWithNoItems (resp 1) = true →
       ocrOneImage resp parse 3 0 [] = ⟨[], 2, [2000]⟩) ∧
    (∀ b0 b1, resp 0 = .status 503 b0 → resp 1 = .status 503 b1 →
       endsWithNoItems (resp 2) = true →
       ocrOneImage resp parse 3 0 [] = ⟨[], 3, [2000, 2000]⟩) ∧
    (∀ (pre post : List (Nat → FetchOutcome)),
       getOcrResults (pre ++ resp :: post) parse =
         getOcrResults pre parse ++ (ocrOneImage resp parse 3 0 []).items ++
           getOcrResults post parse) := by
  have hfail : ∀ (f : FetchOutcome), endsWithNoItems f = true →
      ∀ (fuel att : Nat) (ds : List Nat), resp att = f →
      ocrOneImage resp parse (fuel + 1) att ds = ⟨[], att + 1, ds.reverse⟩ := by
    intro f hf fuel att ds hr
    cases f with
    | netErr => simp [ocrOneImage, hr]
    | status code body =>
      by_cases h503 : code = 503
      · simp [endsWithNoItems, h503] at hf
      · by_cases hok : 200 ≤ code ∧ code ≤ 299
        · have hbody : body = none := by
            cases body with
            | none => rfl
            | some b =>
              exfalso
              simp [endsWithNoItems, h503, hok.1, hok.2] at hf
          subst hbody
          simp [ocrOneImage, hr, h503, hok.1, hok.2]
        · cases body with
          | some b =>
            simp only [ocrOneImage, hr]
            rw [if_neg (by simp [h503]), if_neg (by simp; omega)]
          | none =>
            simp only [ocrOneImage, hr]
            rw [if_neg (by simp [h503]), if_neg (by simp; omega)]
  refine ⟨ocrOneImage_attempts_le resp parse 3 0 [], ?_, ?_, ?_, ?_, ?_, ?_, ?_, ?_⟩
  · intro b0 b1 b2 h0 h1 h2
    simp [ocrOneImage, h0, h1, h2]
  · intro c b h0 hc1 hc2
    have hne : c ≠ 503 := by omega
    simp [ocrOneImage, h0, hne, hc1, hc2]
  · intro b0 c b h0 h1 hc1 hc2
    have hne : c ≠ 503 := by omega
    simp [ocrOneImage, h0, h1, hne, hc1, hc2]
  · intro b0 b1 c b h0 h1 h2 hc1 hc2
    have hne : c ≠ 503 := by omega
    simp [ocrOneImage, h0, h1, h2, hne, hc1, hc2]
  · intro hf
    exact hfail (resp 0) hf 2 0 [] rfl
  · intro b0 h0 hf
    have step : ocrOneImage resp parse 3 0 [] = ocrOneImage resp parse 2 1 [2000] := by
      simp [ocrOneImage, h0]
    rw [step, hfail (resp 1) hf 1 1 [2000] rfl]
    rfl
  · intro b0 b1 h0 h1 hf
    have step : ocrOneImage resp parse 3 0 [] = ocrOneImage resp parse 1 2 [2000, 2000] := by
      simp [ocrOneImage, h0, h1]
    rw [step, hfail (resp 2) hf 0 2 [2000, 2000] rfl]
    rfl
  · intro pre post
    simp [getOcrResults, List.append_assoc]

/-- Witness for C6: two overloaded responses followed by success give three
attempts, two 2-second delays and the parsed items. -/
theorem C6_witness :
    ocrOneImage respTwice503 (fun s => [s.length]) 3 0 [] = ⟨[2], 3, [2000, 2000]⟩ :=
  (C6_overload_retry_policy respTwice503 (fun s => [s.length])).2.2.2.2.1
    none none 200 "[]" rfl rfl rfl (by decide) (by decide)

/-! ### Claim C3 -/

/-- One downscale step from a scale in `(400, 1000]` lands in `(340, 1000]`. -/
theorem fix3step_bounds (s : Nat) (h1 : 400 < s) (h2 : s ≤ 1000) :
    340 < fix3step s ∧ fix3step s ≤ 1000 := by
  unfold fix3step; omega

/-- The compression loop appends at least one (when fuel remains) and at
most `fuel` new trace entries. -/
theorem compressLoop_used_len (enc : Nat → Nat → Nat) (tgt : Nat) :
    ∀ (fuel q s : Nat) (best : Option Nat) (used : List (Nat × Nat)),
      used.length ≤ (compressLoop enc tgt fuel q s best used).used.length ∧
      (compressLoop enc tgt fuel q s best used).used.length ≤ used.length + fuel ∧
      (0 < fuel → used.length < (compressLoop enc tgt fuel q s best used).used.length) := by
  intro fuel
  induction fuel with
  | zero => intro q s best used; simp [compressLoop]
  | succ fuel ih =>
    intro q s best used
    by_cases h1 : enc q s ≤ tgt
    · simp [compressLoop, h1]
    · by_cases h2 : 25 < q
      · have := ih (max 25 (q - 10)) s (some (minOpt best (enc q s))) ((q, s) :: used)
        simp only [compressLoop, if_neg h1, if_pos h2]
        simp at this ⊢
        omega
      · by_cases h3 : 400 < s
        · have := ih q (fix3step s) (some (minOpt best (enc q s))) ((q, s) :: used)
          simp only [compressLoop, if_neg h1, if_neg h2, if_pos h3]
          simp at this ⊢
          omega
        · simp [compressLoop, h1, h2, h3]

/-- Every (quality, scale) pair the compression loop renders with keeps the
quality in `[0.25, 0.9]` and the scale in `(0.34, 1]` (in centi/milli
units), as long as the entry state does. -/
theorem compressLoop_used_bounds (enc : Nat → Nat → Nat) (tgt : Nat) :
    ∀ (fuel q s : Nat) (best : Option Nat) (used : List (Nat × Nat)),
      25 ≤ q → q ≤ 90 → 340 < s → s ≤ 1000 →
      (∀ p ∈ used, 25 ≤ p.1 ∧ p.1 ≤ 90 ∧ 340 < p.2 ∧ p.2 ≤ 1000) →
      ∀ p ∈ (compressLoop enc tgt fuel q s best used).used,
        25 ≤ p.1 ∧ p.1 ≤ 90 ∧ 340 < p.2 ∧ p.2 ≤ 1000 := by
  intro fuel
  induction fuel with
  | zero =>
    intro q s best used _ _ _ _ hused p hp
    simp [compressLoop] at hp
    exact hused p hp
  | succ fuel ih =>
    intro q s best used hq1 hq2 hs1 hs2 hused p hp
    have hcons : ∀ p2 ∈ (q, s) :: used, 25 ≤ p2.1 ∧ p2.1 ≤ 90 ∧ 340 < p2.2 ∧ p2.2 ≤ 1000 := by
      intro p2 hp2
      rcases List.mem_cons.mp hp2 with h | h
      · subst h; exact ⟨hq1, hq2, hs1, hs2⟩
      · exact hused p2 h
    by_cases h1 : enc q s ≤ tgt
    · simp [compressLoop, h1] at hp
      rcases hp with h | h
      · exact hused p h
      · exact hcons p (by simp [h])
    · by_cases h2 : 25 < q
      · rw [show compressLoop enc tgt (fuel + 1) q s best used
            = compressLoop enc tgt fuel (max 25 (q - 10)) s
                (some (minOpt best (enc q s))) ((q, s) :: used) from by
            simp [compressLoop, h1, h2]] at hp
        exact ih (max 25 (q - 10)) s _ ((q, s) :: used)
          (le_max_left _ _) (by omega) hs1 hs2 hcons p hp
      · by_cases h3 : 400 < s
        · rw [show compressLoop enc tgt (fuel + 1) q s best used
              = compressLoop enc tgt fuel q (fix3step s)
                  (some (minOpt best (enc q s))) ((q, s) :: used) from by
              simp [compressLoop, h1, h2, h3]] at hp
          have hfx := fix3step_bounds s h3 hs2
          exact ih q (fix3step s) _ ((q, s) :: used) hq1 hq2 hfx.1 hfx.2 hcons p hp
        · simp [compressLoop, h1, h2, h3] at hp
          rcases hp with h | h
          · exact hused p h
          · exact hcons p (by simp [h])

/-- Size specification of the compression loop: if the target is never met
the returned size is the least encoded size over the whole trace (and all
observed sizes exceed the target); if it is met, the loop stops at the
first trace entry whose encoding meets the target and returns exactly that
blob. `fresh` is the trace so far (the loop carries it reversed); `best`,
when present, must be the minimum over `fresh` and all of `fresh` must
exceed the target. -/
theorem compressLoop_size_spec (enc : Nat → Nat → Nat) (tgt : Nat) :
    ∀ (fuel q s : Nat) (best : Option Nat) (fresh : List (Nat × Nat))
      (r : CompressRun),
      r = compressLoop enc tgt fuel q s best fresh.reverse →
      (best = none → fresh = []) →
      (∀ b, best = some b →
        fresh ≠ [] ∧ b ∈ fresh.map (fun p => enc p.1 p.2) ∧
        ∀ x ∈ fresh.map (fun p => enc p.1 p.2), b ≤ x ∧ tgt < x) →
      ((r.met = false → r.used ≠ [] →
          r.size ∈ r.used.map (fun p => enc p.1 p.2) ∧
          ∀ x ∈ r.used.map (fun p => enc p.1 p.2), r.size ≤ x ∧ tgt < x) ∧
       (r.met = true →
          ∃ pre pp, r.used = pre ++ [pp] ∧ enc pp.1 pp.2 ≤ tgt ∧
            r.size = enc pp.1 pp.2 ∧
            ∀ x ∈ pre.map (fun p2 => enc p2.1 p2.2), tgt < x)) := by
  intro fuel
  induction fuel with
  | zero =>
    intro q s best fresh r hr hnone hsome
    rw [show compressLoop enc tgt 0 q s best fresh.reverse
        = ⟨false, best.getD 0, fresh⟩ from by simp [compressLoop]] at hr
    subst hr
    refine ⟨?_, by intro h; simp at h⟩
    intro _ hne
    cases hb : best with
    | none => exact absurd (hnone hb) hne
    | some b =>
      obtain ⟨_, hmem, hub⟩ := hsome b hb
      exact ⟨hmem, hub⟩
  | succ fuel ih =>
    intro q s best fresh r hr hnone hsome
    by_cases h1 : enc q s ≤ tgt
    · rw [show compressLoop enc tgt (fuel + 1) q s best fresh.reverse
          = ⟨true, enc q s, fresh ++ [(q, s)]⟩ from by simp [compressLoop, h1]] at hr
      subst hr
      refine ⟨by intro h; simp at h, ?_⟩
      intro _
      refine ⟨fresh, (q, s), rfl, h1, rfl, ?_⟩
      intro x hx
      cases hb : best with
      | none => simp [hnone hb] at hx
      | some b => exact ((hsome b hb).2.2 x hx).2
    · have hInone : some (minOpt best (enc q s)) = none → fresh ++ [(q, s)] = [] := by
        simp
      have hIsome : ∀ b, some (minOpt best (enc q s)) = some b →
          fresh ++ [(q, s)] ≠ [] ∧
          b ∈ (fresh ++ [(q, s)]).map (fun p => enc p.1 p.2) ∧
          ∀ x ∈ (fresh ++ [(q, s)]).map (fun p => enc p.1 p.2), b ≤ x ∧ tgt < x := by
        intro b hb
        injection hb with hb
        subst hb
        cases hbest : best with
        | none =>
          have hf : fresh = [] := hnone hbest
          subst hf
          refine ⟨by simp, by simp [minOpt], ?_⟩
          intro x hx
          simp [minOpt] at hx ⊢
          omega
        | some b0 =>
          obtain ⟨_, hmem, hub⟩ := hsome b0 hbest
          have hsplit : (fresh ++ [(q, s)]).map (fun p => enc p.1 p.2)
              = fresh.map (fun p => enc p.1 p.2) ++ [enc q s] := by simp
          refine ⟨by simp, ?_, ?_⟩
          · rw [hsplit]
            rcases le_total b0 (enc q s) with hc | hc
            · exact List.mem_append.mpr
                (Or.inl (by simpa [minOpt, min_eq_left hc] using hmem))
            · exact List.mem_append.mpr (Or.inr (by simp [minOpt, min_eq_right hc]))
          · intro x hx
            rw [hsplit] at hx
            rcases List.mem_append.mp hx with hx | hx
            · have hb := hub x hx
              have hb1 := hb.1
              refine ⟨?_, hb.2⟩
              simp only [minOpt]
              omega
            · have hxe : x = enc q s := by simpa using hx
              subst hxe
              exact ⟨by simp only [minOpt]; omega, by omega⟩
      by_cases h2 : 25 < q
      · rw [show compressLoop enc tgt (fuel + 1) q s best fresh.reverse
            = compressLoop enc tgt fuel (max 25 (q - 10)) s
                (some (minOpt best (enc q s))) ((fresh ++ [(q, s)]).reverse) from by
              simp [compressLoop, h1, h2]] at hr
        exact ih (max 25 (q - 10)) s _ (fresh ++ [(q, s)]) r hr hInone hIsome
      · by_cases h3 : 400 < s
        · rw [show compressLoop enc tgt (fuel + 1) q s best fresh.reverse
              = compressLoop enc tgt fuel q (fix3step s)
                  (some (minOpt best (enc q s))) ((fresh ++ [(q, s)]).reverse) from by
                simp [compressLoop, h1, h2, h3]] at hr
          exact ih q (fix3step s) _ (fresh ++ [(q, s)]) r hr hInone hIsome
        · rw [show compressLoop enc tgt (fuel + 1) q s best fresh.reverse
              = ⟨false, minOpt best (enc q s), fresh ++ [(q, s)]⟩ from by
                simp [compressLoop, h1, h2, h3]] at hr
          subst hr
          refine ⟨?_, by intro h; simp at h⟩
          intro _ _
          exact (hIsome (minOpt best (enc q s)) rfl).2

/-- Counterexample to claim C3: the claim states the geometric downscale
has "a floor of 0.4× the original dimensions". With an encoder that never
reaches the target, the 14th render uses scale 0.378 (378/1000), one
0.85-step *below* 0.4: the code only checks `scale > 0.4` before
multiplying, so the final scale may land under the claimed floor. The trace
length 14 also shows the loop exhausts its quality/scale moves one
iteration before the 15-iteration cap. -/
theorem C3_counterexample :
    (25, 378) ∈ (compressImageRun encHuge 100).used ∧ 378 < 400 ∧
    (compressImageRun encHuge 100).used.length = 14 ∧
    (compressImageRun encHuge 100).met = false := by decide

/-- Claim C3 as amended: `compressImage` re-encodes at qualities from 0.9
down to the floor 0.25 and then downscales geometrically by 0.85 per step,
reducing the scale only while it exceeds 0.4 — so every render uses a scale
in `(0.34, 1]` and the last one may lie one step below 0.4; it runs at most
15 iterations, stops as soon as the encoded size meets the target (the
returned blob is the first one meeting it, with every earlier attempt above
the target), returns the smallest observed size when the target is never
met, and on non-image input, decode error or internal encode failure it
resolves with the original file — it never rejects. -/
theorem C3_compression_spec (enc : Nat → Nat → Nat) (kb : Nat) :
    (1 ≤ (compressImageRun enc kb).used.length ∧
     (compressImageRun enc kb).used.length ≤ 15) ∧
    (∀ p ∈ (compressImageRun enc kb).used,
       25 ≤ p.1 ∧ p.1 ≤ 90 ∧ 340 < p.2 ∧ p.2 ≤ 1000) ∧
    ((compressImageRun enc kb).met = false →
       (compressImageRun enc kb).size ∈
         (compressImageRun enc kb).used.map (fun p => enc p.1 p.2) ∧
       ∀ x ∈ (compressImageRun enc kb).used.map (fun p => enc p.1 p.2),
         (compressImageRun enc kb).size ≤ x ∧ tnoTargetBytes kb < x) ∧
    ((compressImageRun enc kb).met = true →
       ∃ pre pp, (compressImageRun enc kb).used = pre ++ [pp] ∧
         enc pp.1 pp.2 ≤ tnoTargetBytes kb ∧
         (compressImageRun enc kb).size = enc pp.1 pp.2 ∧
         ∀ x ∈ pre.map (fun p2 => enc p2.1 p2.2), tnoTargetBytes kb < x) ∧
    (∀ d e, compressImage false d e enc kb = .original) ∧
    (∀ e, compressImage true false e enc kb = .original) ∧
    compressImage true true false enc kb = .original ∧
    compressImage true true true enc kb = .jpeg (compressImageRun enc kb).size := by
  have hlen := compressLoop_used_len enc (tnoTargetBytes kb) 15 90 1000 none []
  have hbounds := compressLoop_used_bounds enc (tnoTargetBytes kb) 15 90 1000 none []
    (by omega) (by omega) (by omega) (by omega) (by intro p hp; simp at hp)
  have hrun : compressLoop enc (tnoTargetBytes kb) 15 90 1000 none []
      = compressImageRun enc kb := rfl
  rw [hrun] at hlen hbounds
  have hspec := compressLoop_size_spec enc (tnoTargetBytes kb) 15 90 1000 none []
    (compressImageRun enc kb) rfl (fun _ => rfl) (by intro b hb; simp at hb)
  refine ⟨⟨?_, ?_⟩, ?_, ?_, ?_, ?_, ?_, ?_, ?_⟩
  · have := hlen.2.2 (by omega)
    simpa using this
  · simpa using hlen.2.1
  · exact hbounds
  · intro hmet
    refine hspec.1 hmet ?_
    have := hlen.2.2 (by omega)
    intro hnil
    rw [hnil] at this
    simp at this
  · exact hspec.2
  · intro d e; rfl
  · intro e; rfl
  · rfl
  · rfl

/-- Witness for C3 (amended) with an encoder that never meets the target:
the returned size is among the observed sizes and is minimal. -/
theorem C3_witness :
    (compressImageRun encSlope 100).size ∈
      (compressImageRun encSlope 100).used.map (fun p => encSlope p.1 p.2) ∧
    ∀ x ∈ (compressImageRun encSlope 100).used.map (fun p => encSlope p.1 p.2),
      (compressImageRun encSlope 100).size ≤ x ∧ tnoTargetBytes 100 < x :=
  (C3_compression_spec encSlope 100).2.2.1 (by decide)

/-! ### Claim C10 -/

/-- Looking up a key other than the assigned one is unaffected by the
in-place part of `setKey`. -/
theorem lookup_mapUpd {β : Type} (k k2 : String) (v : β) (l : List (String × β))
    (hne : k2 ≠ k) :
    List.lookup k2 (l.map fun kv => if kv.1 = k then (k, v) else kv) =
      List.lookup k2 l := by
  induction l with
  | nil => rfl
  | cons a rest ih =>
    obtain ⟨a1, a2⟩ := a
    by_cases ha : a1 = k
    · subst ha
      have hb : (k2 == a1) = false := beq_false_of_ne hne
      simp [List.lookup_cons, hb, ih]
    · have hif : ¬((a1, a2).1 = k) := by simpa using ha
      simp only [List.map_cons, if_neg hif]
      rw [List.lookup_cons, List.lookup_cons]
      cases hbeq : k2 == a1 <;> simp [hbeq, ih]

theorem lookup_setKey_self {β : Type} (l : List (String × β)) (k : String) (v : β) :
    List.lookup k (setKey l k v) = some v := by
  unfold setKey
  by_cases hp : (List.lookup k l).isSome
  · rw [if_pos hp]
    induction l with
    | nil => simp at hp
    | cons a rest ih =>
      obtain ⟨a1, a2⟩ := a
      by_cases ha : a1 = k
      · subst ha
        simp [List.lookup_cons]
      · have hif : ¬((a1, a2).1 = k) := by simpa using ha
        have hb : (k == a1) = false := beq_false_of_ne (fun h => ha h.symm)
        simp only [List.map_cons, if_neg hif]
        rw [List.lookup_cons]
        simp only [hb, cond_false]
        exact ih (by simpa [List.lookup_cons, hb] using hp)
  · rw [if_neg hp]
    induction l with
    | nil => simp [List.lookup_cons]
    | cons a rest ih =>
      obtain ⟨a1, a2⟩ := a
      have ha : a1 ≠ k := by
        intro h
        subst h
        simp [List.lookup_cons] at hp
      have hb : (k == a1) = false := beq_false_of_ne (fun h => ha h.symm)
      simp only [List.cons_append]
      rw [List.lookup_cons]
      simp only [hb, cond_false]
      exact ih (by simpa [List.lookup_cons, hb] using hp)

theorem lookup_setKey_other {β : Type} (l : List (String × β)) (k k2 : String)
    (v : β) (hne : k2 ≠ k) :
    List.lookup k2 (setKey l k v) = List.lookup k2 l := by
  unfold setKey
  by_cases hp : (List.lookup k l).isSome
  · rw [if_pos hp]
    exact lookup_mapUpd k k2 v l hne
  · rw [if_neg hp]
    induction l with
    | nil => simp [List.lookup_cons, beq_false_of_ne hne]
    | cons a rest ih =>
      obtain ⟨a1, a2⟩ := a
      simp only [List.cons_append]
      rw [List.lookup_cons, List.lookup_cons]
      cases hbeq : k2 == a1 with
      | true => simp [hbeq]
      | false =>
        simp only [hbeq, cond_false]
        have hk : (k == a1) = false := by
          cases hk2 : k == a1
          · rfl
          · exfalso
            rw [List.lookup_cons] at hp
            simp [hk2] at hp
        refine ih ?_
        rw [List.lookup_cons] at hp
        simpa [hk] using hp

/-- A field-assignment loop leaves keys outside its field list unchanged. -/
theorem lookup_applyFields_not_mem (f : String → NormValue) :
    ∀ (ks : List String) (o : NRec) (k : String), k ∉ ks →
      List.lookup k (applyFields f ks o) = List.lookup k o := by
  intro ks
  induction ks with
  | nil => intro o k _; rfl
  | cons k0 ks ih =>
    intro o k hk
    have h1 : k ≠ k0 := fun h => hk (h ▸ List.mem_cons_self k0 ks)
    have h2 : k ∉ ks := fun h => hk (List.mem_cons_of_mem k0 h)
    rw [show applyFields f (k0 :: ks) o = applyFields f ks (setKey o k0 (f k0)) from rfl]
    rw [ih (setKey o k0 (f k0)) k h2]
    exact lookup_setKey_other o k0 k (f k0) h1

/-- A field-assignment loop gives every listed key its assigned value. -/
theorem lookup_applyFields_mem (f : String → NormValue) :
    ∀ (ks : List String) (o : NRec) (k : String), k ∈ ks →
      List.lookup k (applyFields f ks o) = some (f k) := by
  intro ks
  induction ks with
  | nil => intro o k hk; simp at hk
  | cons k0 ks ih =>
    intro o k hk
    rw [show applyFields f (k0 :: ks) o = applyFields f ks (setKey o k0 (f k0)) from rfl]
    by_cases hmem : k ∈ ks
    · exact ih (setKey o k0 (f k0)) k hmem
    · have hk0 : k = k0 := by
        rcases List.mem_cons.mp hk with h | h
        · exact h
        · exact absurd h hmem
      subst hk0
      rw [lookup_applyFields_not_mem f ks (setKey o k (f k)) k hmem]
      exact lookup_setKey_self o k (f k)

/-- A date-padding statement leaves other keys unchanged. -/
theorem lookup_dateFixKey_ne (o : NRec) (k dk : String) (w : Nat) (hne : k ≠ dk) :
    List.lookup k (dateFixKey o dk w) = List.lookup k o := by
  unfold dateFixKey
  cases hv : List.lookup dk o with
  | none => rfl
  | some v => exact lookup_setKey_other o dk k _ hne

/-- A date-padding statement rewrites a present key to the padded string
(or the empty string when the current value is falsy). -/
theorem lookup_dateFixKey_self (o : NRec) (dk : String) (w : Nat) (v : NormValue)
    (hv : List.lookup dk o = some v) :
    List.lookup dk (dateFixKey o dk w) =
      some (.nstr (if normTruthy v then padStartZ w (normValToStr v) else "")) := by
  unfold dateFixKey
  rw [hv]
  exact lookup_setKey_self o dk _

/-- Claim C10: every record produced by `normalizeAndValidate` is total
over the active field set: it contains every active string field (with
value `""` when the raw key is absent or `null`), every active number
field (with value `null` when absent or `null`), and every active boolean
field (with value `false` when absent or `null`). The hypotheses state
that the derived field spec classifies each field into a single type
bucket and types the date-part keys as strings — both hold for the shipped
schema and for the legacy fallback spec. -/
theorem C10_normalization_totality (sch : Option Schema) (txn : String)
    (items : Json) (rec : NRec)
    (hrec : rec ∈ normalizeAndValidate sch txn items)
    (hd1 : ∀ k ∈ (getFieldSpec sch txn).string, k ∉ (getFieldSpec sch txn).number)
    (hd2 : ∀ k ∈ (getFieldSpec sch txn).string, k ∉ (getFieldSpec sch txn).boolean)
    (hd3 : ∀ k ∈ (getFieldSpec sch txn).number, k ∉ (getFieldSpec sch txn).boolean)
    (hdn : ∀ k ∈ dateKeys, k ∉ (getFieldSpec sch txn).number)
    (hdb : ∀ k ∈ dateKeys, k ∉ (getFieldSpec sch txn).boolean) :
    ∃ raw ∈ jsToItems items,
      rec = normalizeItem (getFieldSpec sch txn) raw ∧
      (∀ k ∈ (getFieldSpec sch txn).string,
         ∃ sv, List.lookup k rec = some (.nstr sv)) ∧
      (∀ k ∈ (getFieldSpec sch txn).string,
         (jsGet raw k = none ∨ jsGet raw k = some .null) →
         List.lookup k rec = some (.nstr "")) ∧
      (∀ k ∈ (getFieldSpec sch txn).number,
         List.lookup k rec = some (.nnum (normalizeNumberO (jsGet raw k)))) ∧
      (∀ k ∈ (getFieldSpec sch txn).number,
         (jsGet raw k = none ∨ jsGet raw k = some .null) →
         List.lookup k rec = some (.nnum none)) ∧
      (∀ k ∈ (getFieldSpec sch txn).boolean,
         List.lookup k rec = some (.nbool (coerceBoolean (jsGet raw k)))) ∧
      (∀ k ∈ (getFieldSpec sch txn).boolean,
         (jsGet raw k = none ∨ jsGet raw k = some .null) →
         List.lookup k rec = some (.nbool false)) := by
  obtain ⟨raw, hraw, heq⟩ := List.mem_map.mp (by simpa [normalizeAndValidate] using hrec)
  subst heq
  set spec := getFieldSpec sch txn with hspecdef
  set base := applyBooleans raw spec.boolean
    (applyNumbers raw spec.number (applyStrings raw spec.string [])) with hbasedef
  have hchain : normalizeItem spec raw =
      dateFixKey (dateFixKey (dateFixKey base "rqt_day" 2) "rqt_mth" 2) "rqt_yr" 4 := rfl
  have hbase_str : ∀ k ∈ spec.string,
      List.lookup k base = some (.nstr (normStringOf raw k)) := by
    intro k hk
    rw [hbasedef]
    simp only [applyBooleans, applyNumbers, applyStrings]
    rw [lookup_applyFields_not_mem _ spec.boolean _ k (hd2 k hk)]
    rw [lookup_applyFields_not_mem _ spec.number _ k (hd1 k hk)]
    exact lookup_applyFields_mem _ spec.string [] k hk
  have hbase_num : ∀ k ∈ spec.number,
      List.lookup k base = some (.nnum (normalizeNumberO (jsGet raw k))) := by
    intro k hk
    rw [hbasedef]
    simp only [applyBooleans, applyNumbers]
    rw [lookup_applyFields_not_mem _ spec.boolean _ k (hd3 k hk)]
    exact lookup_applyFields_mem _ spec.number _ k hk
  have hbase_bool : ∀ k ∈ spec.boolean,
      List.lookup k base = some (.nbool (coerceBoolean (jsGet raw k))) := by
    intro k hk
    rw [hbasedef]
    simp only [applyBooleans]
    exact lookup_applyFields_mem _ spec.boolean _ k hk
  have hchain_ne : ∀ k, k ∉ dateKeys →
      List.lookup k (normalizeItem spec raw) = List.lookup k base := by
    intro k hk
    have h1 : k ≠ "rqt_day" := fun h => hk (by simp [dateKeys, h])
    have h2 : k ≠ "rqt_mth" := fun h => hk (by simp [dateKeys, h])
    have h3 : k ≠ "rqt_yr" := fun h => hk (by simp [dateKeys, h])
    rw [hchain, lookup_dateFixKey_ne _ _ _ _ h3, lookup_dateFixKey_ne _ _ _ _ h2,
      lookup_dateFixKey_ne _ _ _ _ h1]
  have hstr_chain : ∀ k ∈ spec.string, ∃ sv,
      List.lookup k (normalizeItem spec raw) = some (.nstr sv) ∧
      (normStringOf raw k = "" → sv = "") := by
    intro k hk
    by_cases hkd : k ∈ dateKeys
    · have hb := hbase_str k hk
      rcases (by simpa [dateKeys] using hkd : k = "rqt_day" ∨ k = "rqt_mth" ∨ k = "rqt_yr")
        with h | h | h
      · subst h
        refine ⟨if normTruthy (.nstr (normStringOf raw "rqt_day"))
            then padStartZ 2 (normValToStr (.nstr (normStringOf raw "rqt_day"))) else "",
          ?_, ?_⟩
        · rw [hchain, lookup_dateFixKey_ne _ _ _ _ (by decide),
            lookup_dateFixKey_ne _ _ _ _ (by decide)]
          exact lookup_dateFixKey_self base _ 2 _ hb
        · intro h0
          simp [h0, normTruthy]
      · subst h
        refine ⟨if normTruthy (.nstr (normStringOf raw "rqt_mth"))
            then padStartZ 2 (normValToStr (.nstr (normStringOf raw "rqt_mth"))) else "",
          ?_, ?_⟩
        · rw [hchain, lookup_dateFixKey_ne _ _ _ _ (by decide)]
          exact lookup_dateFixKey_self _ _ 2 _
            (by rw [lookup_dateFixKey_ne _ _ _ _ (by decide)]; exact hb)
        · intro h0
          simp [h0, normTruthy]
      · subst h
        refine ⟨if normTruthy (.nstr (normStringOf raw "rqt_yr"))
            then padStartZ 4 (normValToStr (.nstr (normStringOf raw "rqt_yr"))) else "",
          ?_, ?_⟩
        · rw [hchain]
          exact lookup_dateFixKey_self _ _ 4 _
            (by rw [lookup_dateFixKey_ne _ _ _ _ (by decide),
                  lookup_dateFixKey_ne _ _ _ _ (by decide)]; exact hb)
        · intro h0
          simp [h0, normTruthy]
    · exact ⟨normStringOf raw k, by rw [hchain_ne k hkd]; exact hbase_str k hk,
        fun h0 => h0⟩
  have habs_str : ∀ k, (jsGet raw k = none ∨ jsGet raw k = some .null) →
      normStringOf raw k = "" := by
    intro k h
    rcases h with h | h <;> simp [normStringOf, h]
  refine ⟨raw, hraw, rfl, ?_, ?_, ?_, ?_, ?_, ?_⟩
  · intro k hk
    obtain ⟨sv, hsv, _⟩ := hstr_chain k hk
    exact ⟨sv, hsv⟩
  · intro k hk habs
    obtain ⟨sv, hsv, hdef⟩ := hstr_chain k hk
    rw [hsv, hdef (habs_str k habs)]
  · intro k hk
    have hkd : k ∉ dateKeys := fun hd => hdn k hd hk
    rw [hchain_ne k hkd]
    exact hbase_num k hk
  · intro k hk habs
    have hkd : k ∉ dateKeys := fun hd => hdn k hd hk
    rw [hchain_ne k hkd, hbase_num k hk]
    rcases habs with h | h <;> rw [h] <;> rfl
  · intro k hk
    have hkd : k ∉ dateKeys := fun hd => hdb k hd hk
    rw [hchain_ne k hkd]
    exact hbase_bool k hk
  · intro k hk habs
    have hkd : k ∉ dateKeys := fun hd => hdb k hd hk
    rw [hchain_ne k hkd, hbase_bool k hk]
    rcases habs with h | h <;> rw [h] <;> rfl

/-- Witness for C10 with the legacy spec and an empty raw item: the number
field `qty` defaults to `null`, the boolean `gst` to `false`, the string
`code` to `""`, and the padded date field `rqt_day` to `""`. -/
theorem C10_witness :
    List.lookup "qty" (normalizeItem legacyFieldSpec (Json.obj [])) =
      some (.nnum none) ∧
    List.lookup "gst" (normalizeItem legacyFieldSpec (Json.obj [])) =
      some (.nbool false) ∧
    List.lookup "code" (normalizeItem legacyFieldSpec (Json.obj [])) =
      some (.nstr "") ∧
    List.lookup "rqt_day" (normalizeItem legacyFieldSpec (Json.obj [])) =
      some (.nstr "") := by
  obtain ⟨raw, hraw, heq, hstr, hstrd, hnum, hnumd, hbool, hboold⟩ :=
    C10_normalization_totality none "default" (Json.arr [Json.obj []])
      (normalizeItem legacyFieldSpec (Json.obj []))
      (by simp [normalizeAndValidate, jsToItems]; rfl)
      (by decide) (by decide) (by decide) (by decide) (by decide)
  have hrawe : raw = Json.obj [] := by
    simpa [jsToItems] using hraw
  subst hrawe
  rw [heq] at hnumd hboold hstrd ⊢
  refine ⟨hnumd "qty" (by decide) (Or.inl rfl), hboold "gst" (by decide) (Or.inl rfl),
    hstrd "code" (by decide) (Or.inl rfl), hstrd "rqt_day" (by decide) (Or.inl rfl)⟩



/-! ### Claim C8 -/

/-- Unfolding of the fence stripper on the empty list. -/
theorem stripFence_nil (ej : Bool) : stripFence ej [] = [] := by simp [stripFence]

/-- Unfolding when no match starts at the head. -/
theorem stripFence_cons_ne (ej : Bool) (a : Char) (l : List Char)
    (h : ¬ isTicks3 (a :: l)) : stripFence ej (a :: l) = a :: stripFence ej l := by
  rw [stripFence]
  rw [if_neg h]

/-- Unfolding when three backticks match without a following `json`. -/
theorem stripFence_ticks (ej : Bool) (a : Char) (l : List Char)
    (h : isTicks3 (a :: l)) (hj : ¬ (ej = true ∧ isJson4 (l.drop 2))) :
    stripFence ej (a :: l) = stripFence ej (l.drop 2) := by
  rw [stripFence, if_pos h, if_neg hj]

/-- Unfolding when the opening ```json fence matches. -/
theorem stripFence_json_eq (ej : Bool) (a : Char) (l : List Char)
    (h : isTicks3 (a :: l)) (hej : ej = true) (hj : isJson4 (l.drop 2)) :
    stripFence ej (a :: l) = stripFence ej ((l.drop 2).drop 4) := by
  rw [stripFence, if_pos h, if_pos ⟨hej, hj⟩]

/-- A list satisfying the three-backtick test starts with three backticks. -/
theorem isTicks3_elim (a : Char) (l : List Char) (h : isTicks3 (a :: l)) :
    a = tk ∧ ∃ l2, l = tk :: tk :: l2 := by
  unfold isTicks3 at h
  match l with
  | [] => simp [List.take] at h
  | [b] => simp [List.take] at h
  | b :: d :: l2 =>
    simp [List.take] at h
    exact ⟨h.1, l2, by rw [h.2.1, h.2.2]⟩

/-- The fence stripper distributes over an append whose right part starts
with a character that can belong to no match (neither a backtick nor one of
the letters of `json`): no match can span the boundary, so each side is
stripped independently. -/
theorem stripFence_append (ej : Bool) (c : Char) (rest : List Char)
    (hc1 : c ≠ tk) (hc2 : c ≠ 'j') (hc3 : c ≠ 's') (hc4 : c ≠ 'o') (hc5 : c ≠ 'n') :
    ∀ (n : Nat) (s : List Char), s.length ≤ n →
      stripFence ej (s ++ c :: rest) = stripFence ej s ++ stripFence ej (c :: rest) := by
  intro n
  induction n with
  | zero =>
    intro s hs
    have hnil : s = [] := List.eq_nil_of_length_eq_zero (Nat.le_zero.mp hs)
    subst hnil
    simp [stripFence_nil]
  | succ n ih =>
    intro s hs
    match s with
    | [] => simp [stripFence_nil]
    | a :: l =>
      simp only [List.cons_append]
      by_cases ht : isTicks3 (a :: l)
      · obtain ⟨ha, l2, hl⟩ := isTicks3_elim a l ht
        subst ha
        subst hl
        simp only [List.cons_append]
        have hsl : l2.length + 3 ≤ n + 1 := by simpa using hs
        have htL : isTicks3 (tk :: tk :: tk :: (l2 ++ c :: rest)) := by
          simp [isTicks3, List.take]
        have htR : isTicks3 (tk :: tk :: tk :: l2) := by
          simp [isTicks3, List.take]
        by_cases hj : isJson4 l2
        · have hlen4 : 4 ≤ l2.length := by
            have hlen := congrArg List.length hj
            simp [List.length_take] at hlen
            omega
          have hjL : isJson4 (l2 ++ c :: rest) := by
            unfold isJson4 at hj ⊢
            rw [List.take_append_of_le_length hlen4]
            exact hj
          by_cases hej : ej = true
          · rw [stripFence_json_eq ej tk (tk :: tk :: (l2 ++ c :: rest)) htL hej
                (by simpa using hjL)]
            rw [stripFence_json_eq ej tk (tk :: tk :: l2) htR hej (by simpa using hj)]
            simp only [List.drop]
            rw [List.drop_append_of_le_length hlen4]
            exact ih (l2.drop 4) (by simp [List.length_drop]; omega)
          · rw [stripFence_ticks ej tk (tk :: tk :: (l2 ++ c :: rest)) htL
                (by intro hx; exact hej hx.1)]
            rw [stripFence_ticks ej tk (tk :: tk :: l2) htR
                (by intro hx; exact hej hx.1)]
            simp only [List.drop]
            exact ih l2 (by omega)
        · have hjL : ¬ isJson4 (l2 ++ c :: rest) := by
            intro hcontra
            by_cases hlen : 4 ≤ l2.length
            · rw [isJson4, List.take_append_of_le_length hlen] at hcontra
              exact hj hcontra
            · match l2, hlen with
              | [], _ => simp [isJson4, List.take] at hcontra; exact hc2 hcontra.1
              | [x1], _ =>
                simp [isJson4, List.take] at hcontra
                exact hc3 hcontra.2.1
              | [x1, x2], _ =>
                simp [isJson4, List.take] at hcontra
                exact hc4 hcontra.2.2.1
              | [x1, x2, x3], _ =>
                simp [isJson4, List.take] at hcontra
                exact hc5 hcontra.2.2.2
              | x1 :: x2 :: x3 :: x4 :: l5, hlen =>
                exact absurd (by simp) hlen
          rw [stripFence_ticks ej tk (tk :: tk :: (l2 ++ c :: rest)) htL
              (by intro hx; exact hjL (by simpa using hx.2))]
          rw [stripFence_ticks ej tk (tk :: tk :: l2) htR
              (by intro hx; exact hj (by simpa using hx.2))]
          simp only [List.drop]
          exact ih l2 (by omega)
      · have htL : ¬ isTicks3 (a :: (l ++ c :: rest)) := by
          intro hcontra
          match l with
          | [] =>
            match rest with
            | [] => simp [isTicks3, List.take] at hcontra
            | r :: rest2 =>
              simp [isTicks3, List.take] at hcontra
              exact hc1 hcontra.2.1
          | [b] =>
            simp [isTicks3, List.take] at hcontra
            exact hc1 hcontra.2.2
          | b :: d :: l3 =>
            apply ht
            simp [isTicks3, List.take] at hcontra ⊢
            exact ⟨hcontra.1, hcontra.2.1, hcontra.2.2⟩
        rw [stripFence_cons_ne ej a (l ++ c :: rest) htL]
        rw [stripFence_cons_ne ej a l ht]
        rw [ih l (by simpa using Nat.le_of_succ_le_succ hs)]
        simp

/-- A head character other than a backtick passes through the stripper. -/
theorem stripFence_notick_cons (ej : Bool) (x : Char) (Y : List Char) (hx : x ≠ tk) :
    stripFence ej (x :: Y) = x :: stripFence ej Y :=
  stripFence_cons_ne ej x Y (fun hcontra => hx (isTicks3_elim x Y hcontra).1)

/-- A bare closing fence strips to nothing. -/
theorem stripFence_ticks3 (ej : Bool) : stripFence ej [tk, tk, tk] = [] := by
  rw [stripFence_ticks ej tk [tk, tk] (by decide) (fun hx => absurd hx.2 (by decide)),
    show List.drop 2 [tk, tk] = ([] : List Char) from rfl, stripFence_nil]

/-- A newline followed by a closing fence strips to the newline. -/
theorem stripFence_nl_close (ej : Bool) :
    stripFence ej ('\n' :: [tk, tk, tk]) = ['\n'] := by
  rw [stripFence_notick_cons ej '\n' _ (by decide), stripFence_ticks3]

/-- A lone newline is left alone. -/
theorem stripFence_nl_single (ej : Bool) : stripFence ej ['\n'] = ['\n'] := by
  rw [stripFence_notick_cons ej '\n' [] (by decide), stripFence_nil]

/-- The first pass eats an opening ```json fence whole. -/
theorem stripFence_open_fence (X : List Char) :
    stripFence true (tk :: tk :: tk :: 'j' :: 's' :: 'o' :: 'n' :: '\n' :: X) =
      stripFence true ('\n' :: X) := by
  rw [stripFence_json_eq true tk (tk :: tk :: 'j' :: 's' :: 'o' :: 'n' :: '\n' :: X)
    (by simp [isTicks3, List.take]) rfl (by simp [isJson4, List.take, List.drop])]
  rfl

/-- Trimming removes a wrapping newline pair. -/
theorem jsTrim_wrap (Y : List Char) : jsTrim ('\n' :: (Y ++ ['\n'])) = jsTrim Y := by
  unfold jsTrim
  rw [List.dropWhile_cons_of_pos (by decide), List.dropWhile_append]
  by_cases he : (Y.dropWhile isJsWS).isEmpty
  · rw [if_pos he]
    have hnl : (['\n'] : List Char).dropWhile isJsWS = [] := by decide
    have hY : Y.dropWhile isJsWS = [] := by simpa [List.isEmpty_iff] using he
    rw [hnl, hY]
  · rw [if_neg he, List.reverse_append]
    simp only [List.reverse_cons, List.reverse_nil, List.nil_append, List.singleton_append]
    rw [List.dropWhile_cons_of_pos (by decide)]

/-- The cleaning pipeline gives the same result on the code-fenced form of
a text as on the text itself. -/
theorem cleanText_fenced (t : List Char) :
    cleanText (tk :: tk :: tk :: 'j' :: 's' :: 'o' :: 'n' :: '\n' ::
        (t ++ '\n' :: [tk, tk, tk])) =
      cleanText t := by
  unfold cleanText
  rw [List.filter_cons_of_pos (by decide), List.filter_cons_of_pos (by decide),
    List.filter_cons_of_pos (by decide), List.filter_cons_of_pos (by decide),
    List.filter_cons_of_pos (by decide), List.filter_cons_of_pos (by decide),
    List.filter_cons_of_pos (by decide), List.filter_cons_of_pos (by decide),
    List.filter_append, List.filter_cons_of_pos (by decide),
    show List.filter (fun c => c.toNat ≠ 0) [tk, tk, tk] = [tk, tk, tk] from by decide]
  rw [stripFence_open_fence (t.filter (fun c => c.toNat ≠ 0) ++ '\n' :: [tk, tk, tk])]
  rw [stripFence_notick_cons true '\n' _ (by decide)]
  rw [stripFence_append true '\n' [tk, tk, tk] (by decide) (by decide) (by decide)
    (by decide) (by decide) (t.filter (fun c => c.toNat ≠ 0)).length _ le_rfl]
  rw [stripFence_nl_close true]
  rw [stripFence_notick_cons false '\n' _ (by decide)]
  rw [stripFence_append false '\n' [] (by decide) (by decide) (by decide)
    (by decide) (by decide)
    (stripFence true (t.filter (fun c => c.toNat ≠ 0))).length _ le_rfl]
  rw [stripFence_nl_single false]
  exact jsTrim_wrap _

/-- Claim C8: for every response text `t` and transaction type, parsing the
code-fenced form (```json, a newline, `t`, a newline, ```) through
`safeJsonExtract` yields exactly the same item list as parsing `t`
unfenced, whatever the host JSON parser returns. -/
theorem C8_fenced_parse_identical (jp : String → Option Json) (sch : Option Schema)
    (txn : String) (t : String) (h : t ≠ "") :
    safeJsonExtract jp sch txn (fencedText t) = safeJsonExtract jp sch txn t := by
  have hne : fencedText t ≠ "" := by
    intro hx
    have hd := congrArg String.data hx
    simp [fencedText] at hd
  have hdata : (fencedText t).data
      = tk :: tk :: tk :: 'j' :: 's' :: 'o' :: 'n' :: '\n' ::
          (t.data ++ '\n' :: [tk, tk, tk]) := rfl
  unfold safeJsonExtract
  rw [if_neg hne, if_neg h, hdata, cleanText_fenced]

/-- Witness for C8 at a concrete array text with a concrete (always
failing) parser. -/
theorem C8_witness :
    safeJsonExtract (fun _ => none) none "default" (fencedText "[1]") =
      safeJsonExtract (fun _ => none) none "default" "[1]" :=
  C8_fenced_parse_identical (fun _ => none) none "default" "[1]" (by decide)

end Tno
